import Mathlib

/-!
Verification of the size-aware batching downloader
(`process_small_files.py`): path parsing, greedy size-bounded grouping,
per-group sequential transfer, and the collect-all scheduler.

Strings are embedded as `List Char`; machine integers of the source are
`Nat` (Python integers are unbounded, so no modular wrap is needed);
fallible operations return `Except`.  The remote filesystem handle
`fs` (a `gcsfs.GCSFileSystem`) is embedded as a record of oracles for
the two operations the core logic uses: `fs.info(path)["size"]` and
`fs.open(path, "rb")` (the streamed read, abstracted to the full byte
content it delivers).  Filesystem effects of a transfer are embedded as
explicit state: the list of directories passed to `os.makedirs` and the
list of `(path, bytes)` files written, in order.
-/

set_option autoImplicit false

namespace SmallFiles

/-- Strings of the Python source, as lists of characters. -/
abbrev Str := List Char

/-- Byte contents are lists of byte values. -/
abbrev Bytes := List Nat

instance {ε α : Type} [DecidableEq ε] [DecidableEq α] : DecidableEq (Except ε α) := fun x y =>
  match x, y with
  | .ok a, .ok b =>
    if h : a = b then isTrue (by rw [h]) else isFalse (fun hc => h (Except.ok.inj hc))
  | .error a, .error b =>
    if h : a = b then isTrue (by rw [h]) else isFalse (fun hc => h (Except.error.inj hc))
  | .ok _, .error _ => isFalse (fun hc => Except.noConfusion hc)
  | .error _, .ok _ => isFalse (fun hc => Except.noConfusion hc)

/-- The remote filesystem handle (`gcsfs.GCSFileSystem`), reduced to the two
operations the batching core calls on it.  `info_size` is
`fs.info(path)["size"]`; `open_read` is the byte stream obtained from
`fs.open(path, "rb")`, abstracted to the whole content it delivers.
Either can fail with an error of type `ε` (a raised Python exception). -/
structure GCSFileSystem (ε : Type) where
  info_size : Str → Except ε Nat
  open_read : Str → Except ε Bytes

/-- A filesystem handle whose metadata and read operations always succeed,
with sizes given by `sz` and contents by `content`. -/
def pureFS {ε : Type} (sz : Str → Nat) (content : Str → Bytes) : GCSFileSystem ε where
  info_size := fun b => .ok (sz b)
  open_read := fun b => .ok (content b)

/-- Errors `parse_gcs_path` can raise: the source's own
`ValueError(f"Invalid GCS path: {gcs_path}")`, and the
`ValueError("Invalid IPv6 URL")` that `urllib.parse.urlsplit` raises on an
unmatched bracket in the netloc.  The `ValueError`s of `urlsplit`'s two
remaining netloc checks (see `parse_gcs_path`) come from oracles and may
use any of these constructors. -/
inductive PyError where
  | valueError (gcs_path : Str)
  | invalidIPv6URL
deriving DecidableEq

/-! ## Path parser (`parse_gcs_path`)

`urllib.parse.urlparse(gcs_path)` on a `gs://`-prefixed string
(CPython 3.11 `urlsplit`): first every tab, CR and LF character is
removed (`_UNSAFE_URL_BYTES_TO_REMOVE`; the leading
control-or-space lstrip is a no-op on a string starting with `g`); the
scheme resolves to `gs`; the netloc is the text after `gs://` up to the
first of `/`, `?`, `#`, and the path is what follows it up to the first
of `?` (query) or `#` (fragment).  `urlsplit` raises
`ValueError("Invalid IPv6 URL")` when the netloc contains `[` without
`]` or `]` without `[`.  Two further netloc checks call into the
standard library and are passed to the model as oracles returning
`some e` exactly when the library call raises `e`:
`_check_bracketed_host` (run on the text between the first `[` and the
next `]` when the netloc has both brackets; validates an
IPv6/IPvFuture literal via the `ipaddress` module) and the NFKC
normalization branch of `_checknetloc` (reached only by non-ASCII
netlocs; its ASCII early return is modelled exactly).  The scheme `gs`
is not in `urllib`'s `uses_params` list, so no `;`-parameter splitting
applies to the path. -/

/-- The scheme prefix `"gs://"` tested by `gcs_path.startswith("gs://")`
(on the raw input, before `urlparse` and its sanitization). -/
def gsScheme : Str := ['g', 's', ':', '/', '/']

/-- `urlsplit`'s `_UNSAFE_URL_BYTES_TO_REMOVE` sanitization: every tab,
carriage return and line feed is removed from the URL before parsing. -/
def removeUnsafeBytes (url : Str) : Str :=
  url.filter (fun c => !(c == '\t' || c == '\r' || c == '\n'))

/-- Host (netloc) component of the (sanitized) URL text following `gs://`. -/
def urlNetloc (rest : Str) : Str :=
  rest.takeWhile (fun c => !(c == '/' || c == '?' || c == '#'))

/-- Path component of the (sanitized) URL text following `gs://`: what
remains after the netloc, truncated at the query or fragment delimiter. -/
def urlPath (rest : Str) : Str :=
  (rest.dropWhile (fun c => !(c == '/' || c == '?' || c == '#'))).takeWhile
    (fun c => !(c == '?' || c == '#'))

/-- Python's `s.lstrip('/')`: drop every leading slash. -/
def lstripSlash (p : Str) : Str := p.dropWhile (fun c => c == '/')

/-- `urlsplit`'s Invalid-IPv6-URL condition: the netloc contains `[`
without `]`, or `]` without `[`. -/
def hasUnmatchedBracket (netloc : Str) : Bool :=
  (netloc.contains '[' && !netloc.contains ']')
    || (netloc.contains ']' && !netloc.contains '[')

/-- `netloc.partition('[')[2].partition(']')[0]`: the text between the
first `[` and the next `]`, handed to `_check_bracketed_host`. -/
def bracketedHost (netloc : Str) : Str :=
  ((netloc.dropWhile (fun c => !(c == '['))).drop 1).takeWhile (fun c => !(c == ']'))

/-- `_checknetloc(netloc)`: returns without raising when the netloc is empty
or all-ASCII (`if not netloc or netloc.isascii(): return`); otherwise the
NFKC normalization check runs, modelled by the oracle `nfkc_check`. -/
def checknetloc (nfkc_check : Str → Option PyError) (netloc : Str) : Option PyError :=
  if netloc = [] || netloc.all (fun c => c.toNat < 128) then none
  else nfkc_check netloc

/-- Oracle instance for runs in which neither library netloc check raises
(in particular for every bracket-free ASCII netloc, where the checks are
never consulted or return without error). -/
def no_netloc_error : Str → Option PyError := fun _ => none

/-- `parse_gcs_path`: reject inputs not starting with `gs://` with the
source's `ValueError`; otherwise run `urlparse` (sanitization, netloc
split, unmatched-bracket raise, bracketed-host check, `_checknetloc`) and
return `(parsed_url.netloc, parsed_url.path.lstrip('/'))`.  A pure
function of its input and the two check oracles (no side effects in the
source either). -/
def parse_gcs_path (check_bracketed_host nfkc_check : Str → Option PyError)
    (gcs_path : Str) : Except PyError (Str × Str) :=
  if gsScheme.isPrefixOf gcs_path then
    let rest := (removeUnsafeBytes gcs_path).drop 5
    let bucket_name := urlNetloc rest
    if hasUnmatchedBracket bucket_name then .error .invalidIPv6URL
    else
      match (if bucket_name.contains '[' && bucket_name.contains ']' then
               check_bracketed_host (bracketedHost bucket_name)
             else none) with
      | some e => .error e
      | none =>
        match checknetloc nfkc_check bucket_name with
        | some e => .error e
        | none => .ok (bucket_name, lstripSlash (urlPath rest))
  else
    .error (.valueError gcs_path)

/-! ## `os.path` models

`posixpath.join`, `posixpath.dirname` exactly as in CPython.
`posixpath.relpath` first makes both arguments absolute against the
(shared) working directory and then compares normalized component
lists; for the relative, `..`-free paths this program produces, that is
the component-wise computation below, independent of the working
directory. -/

/-- Python's `s.rstrip('/')`. -/
def rstripSlash (p : Str) : Str :=
  (p.reverse.dropWhile (fun c => c == '/')).reverse

/-- `posixpath.join(a, b)` for two arguments. -/
def os_path_join (a b : Str) : Str :=
  if b.head? = some '/' then b
  else if a = [] ∨ a.getLast? = some '/' then a ++ b
  else a ++ '/' :: b

/-- `posixpath.dirname(p)`: everything up to the final slash, with trailing
slashes stripped unless the result is all slashes. -/
def os_path_dirname (p : Str) : Str :=
  let head := (p.reverse.dropWhile (fun c => !(c == '/'))).reverse
  if head = [] ∨ head.all (fun c => c == '/') then head else rstripSlash head

/-- Path components after normalization: split on `/`, discarding empty
components and `.` components. -/
def splitComponents (p : Str) : List Str :=
  (p.splitOn '/').filter (fun s => !(s == [] || s == ['.']))

/-- Length of the longest common prefix of two component lists. -/
def commonPrefixLen : List Str → List Str → Nat
  | a :: as, b :: bs => if a = b then commonPrefixLen as bs + 1 else 0
  | _, _ => 0

/-- `posixpath.relpath(path, start)` for normalized `..`-free inputs:
climb out of the non-shared components of `start`, then descend into the
non-shared components of `path`. -/
def os_path_relpath (path start : Str) : Str :=
  let pComps := splitComponents path
  let sComps := splitComponents start
  let i := commonPrefixLen sComps pComps
  let relComps := List.replicate (sComps.length - i) ['.', '.'] ++ pComps.drop i
  if relComps = [] then ['.'] else List.intercalate ['/'] relComps

/-! ## Grouping engine (`group_blobs_by_size`) -/

/-- `get_blob_size(fs, blob_path)`: `fs.info(blob_path)['size']`. -/
def get_blob_size {ε : Type} (fs : GCSFileSystem ε) (blob_path : Str) : Except ε Nat :=
  fs.info_size blob_path

/-- The `for blob in blobs` loop of `group_blobs_by_size`, with the mutable
locals `grouped_blobs`, `current_group`, `current_size` passed explicitly,
followed by the trailing `if current_group: grouped_blobs.append(current_group)`.
A raised `get_blob_size` error aborts the whole loop. -/
def groupBlobsLoop {ε : Type} (fs : GCSFileSystem ε) (max_size_bytes : Nat) :
    List Str → List (List Str) → List Str → Nat → Except ε (List (List Str))
  | [], grouped_blobs, current_group, _ =>
    .ok (if current_group = [] then grouped_blobs else grouped_blobs ++ [current_group])
  | blob :: rest, grouped_blobs, current_group, current_size =>
    match get_blob_size fs blob with
    | .error e => .error e
    | .ok blob_size =>
      if current_size + blob_size > max_size_bytes then
        groupBlobsLoop fs max_size_bytes rest (grouped_blobs ++ [current_group]) [blob] blob_size
      else
        groupBlobsLoop fs max_size_bytes rest grouped_blobs (current_group ++ [blob])
          (current_size + blob_size)

/-- `group_blobs_by_size(fs, blobs, max_size_mb)`: greedy single pass over
`blobs` with byte budget `max_size_mb * 1024 * 1024`. -/
def group_blobs_by_size {ε : Type} (fs : GCSFileSystem ε) (blobs : List Str)
    (max_size_mb : Nat) : Except ε (List (List Str)) :=
  groupBlobsLoop fs (max_size_mb * 1024 * 1024) blobs [] [] 0

/-- The grouping loop specialised to a total size oracle `sz`; the pure
computation `group_blobs_by_size` performs when no metadata lookup fails. -/
def groupBlobsLoopP (sz : Str → Nat) (max_size_bytes : Nat) :
    List Str → List (List Str) → List Str → Nat → List (List Str)
  | [], grouped_blobs, current_group, _ =>
    if current_group = [] then grouped_blobs else grouped_blobs ++ [current_group]
  | blob :: rest, grouped_blobs, current_group, current_size =>
    if current_size + sz blob > max_size_bytes then
      groupBlobsLoopP sz max_size_bytes rest (grouped_blobs ++ [current_group]) [blob] (sz blob)
    else
      groupBlobsLoopP sz max_size_bytes rest grouped_blobs (current_group ++ [blob])
        (current_size + sz blob)

/-- Modelled from the spec, for comparison with `group_blobs_by_size`
(claim C3): the reference greedy algorithm of section 4.4, whose close
condition additionally requires the current group to be non-empty
(step 2: close only when the running size would overflow AND the current
group is non-empty). -/
def specGroupLoop (sz : Str → Nat) (maxGroupBytes : Nat) :
    List Str → List (List Str) → List Str → Nat → List (List Str)
  | [], out, current, _ =>
    if current = [] then out else out ++ [current]
  | b :: rest, out, current, currentSize =>
    if currentSize + sz b > maxGroupBytes ∧ current ≠ [] then
      specGroupLoop sz maxGroupBytes rest (out ++ [current]) [b] (sz b)
    else
      specGroupLoop sz maxGroupBytes rest out (current ++ [b]) (currentSize + sz b)

/-- Modelled from the spec: the Grouping Engine contract of section 4.4,
run from an empty current group and running size 0. -/
def specGroup (sz : Str → Nat) (blobs : List Str) (maxGroupBytes : Nat) : List (List Str) :=
  specGroupLoop sz maxGroupBytes blobs [] [] 0

/-! ## Transfer executor (`download_group`) -/

/-- The filesystem effects of a transfer: directories handed to
`os.makedirs(..., exist_ok=True)` and files written, each in program order. -/
structure LocalFS where
  dirs : List Str
  files : List (Str × Bytes)
deriving DecidableEq

/-- The `destination_file_name` computed for `blob` inside `download_group`:
`os.path.join(destination_folder, os.path.relpath(blob, start=f"{bucket_name}/"))`. -/
def dest_file_name (bucket_name destination_folder blob : Str) : Str :=
  os_path_join destination_folder (os_path_relpath blob (bucket_name ++ ['/']))

/-- `download_group(fs, bucket_name, blobs, destination_folder)`: for each
blob in order, compute its mirrored destination path, create the parent
directory, then stream the blob's bytes to that path (`download_blob`).
A raised error stops the loop and propagates; effects already performed
stay in the state. -/
def download_group {ε : Type} (fs : GCSFileSystem ε) (bucket_name : Str)
    (blobs : List Str) (destination_folder : Str) (st : LocalFS) : LocalFS × Option ε :=
  match blobs with
  | [] => (st, none)
  | blob :: rest =>
    let destination_file_name := dest_file_name bucket_name destination_folder blob
    let st1 : LocalFS := ⟨st.dirs ++ [os_path_dirname destination_file_name], st.files⟩
    match fs.open_read blob with
    | .error e => (st1, some e)
    | .ok data =>
      download_group fs bucket_name rest destination_folder
        ⟨st1.dirs, st1.files ++ [(destination_file_name, data)]⟩

/-! ## Worker-pool scheduler (`download_all_files`, dispatch section)

The source submits one `download_group` task per group to a
`ThreadPoolExecutor`, then drains `as_completed(futures)` with
`future.result()` wrapped in `try/except` (the error is printed and the
drain continues).  The embedding serialises this: groups run in
dispatch order against the shared local filesystem state, and each
task's outcome (`none` for success, `some e` for a captured error) is
collected; no error escapes the drain loop. -/

def run_groups {ε : Type} (fs : GCSFileSystem ε) (bucket_name : Str)
    (destination_folder : Str) : List (List Str) → LocalFS → LocalFS × List (Option ε)
  | [], st => (st, [])
  | group :: rest, st =>
    let r := download_group fs bucket_name group destination_folder st
    let rec_rest := run_groups fs bucket_name destination_folder rest r.1
    (rec_rest.1, r.2 :: rec_rest.2)

/-- Modelled from the spec (claim C4, section 6 output contract): the
destination path obtained by mirroring the object's remote path relative to
the listing location `bucket/prefix`, rather than relative to the container
root as the source computes it. -/
def spec_dest_file_name (bucket_name pfx destination_folder blob : Str) : Str :=
  os_path_join destination_folder (os_path_relpath blob (os_path_join bucket_name pfx))

/-- A filesystem handle whose size lookup fails exactly on the object "x". -/
def oneBadSizeFS : GCSFileSystem Unit where
  info_size := fun b => if b = ['x'] then .error () else .ok 1
  open_read := fun _ => .ok []

/-- A filesystem handle whose read fails exactly on the object "b/bad". -/
def oneBadReadFS : GCSFileSystem Unit where
  info_size := fun _ => .ok 1
  open_read := fun b => if b = ['b', '/', 'b', 'a', 'd'] then .error () else .ok [7]

/-! ## Helper lemmas -/

/-- The first element surviving `dropWhile q` does not satisfy `q`. -/
theorem head?_dropWhile {α : Type} (q : α → Bool) :
    ∀ (l : List α) (a : α), (l.dropWhile q).head? = some a → q a = false := by
  intro l
  induction l with
  | nil => intro a h; simp [List.dropWhile] at h
  | cons x xs ih =>
    intro a h
    rw [List.dropWhile] at h
    cases hq : q x with
    | true => simp only [hq] at h; exact ih a h
    | false =>
      simp only [hq, List.head?] at h
      cases h
      exact hq

/-- With a total size oracle, the grouping loop never fails and computes the
pure loop. -/
theorem groupBlobsLoop_pureFS {ε : Type} (sz : Str → Nat) (content : Str → Bytes)
    (maxB : Nat) :
    ∀ (blobs : List Str) (g : List (List Str)) (cur : List Str) (s : Nat),
      groupBlobsLoop (ε := ε) (pureFS sz content) maxB blobs g cur s
        = .ok (groupBlobsLoopP sz maxB blobs g cur s) := by
  intro blobs
  induction blobs with
  | nil => intro g cur s; rfl
  | cons blob rest ih =>
    intro g cur s
    show (if s + sz blob > maxB then
            groupBlobsLoop (ε := ε) (pureFS sz content) maxB rest (g ++ [cur]) [blob] (sz blob)
          else
            groupBlobsLoop (ε := ε) (pureFS sz content) maxB rest g (cur ++ [blob]) (s + sz blob))
        = _
    rw [groupBlobsLoopP]
    split
    · exact ih (g ++ [cur]) [blob] (sz blob)
    · exact ih g (cur ++ [blob]) (s + sz blob)

/-- Flattening the loop's result recovers the accumulated groups, the current
group, and the blobs still to be processed, in order. -/
theorem groupBlobsLoop_join {ε : Type} (fs : GCSFileSystem ε) (maxB : Nat) :
    ∀ (blobs : List Str) (g : List (List Str)) (cur : List Str) (s : Nat)
      (gs : List (List Str)),
      groupBlobsLoop fs maxB blobs g cur s = .ok gs →
        gs.flatten = g.flatten ++ cur ++ blobs := by
  intro blobs
  induction blobs with
  | nil =>
    intro g cur s gs h
    rw [groupBlobsLoop] at h
    cases h
    split
    · next hcur => simp [hcur]
    · simp
  | cons blob rest ih =>
    intro g cur s gs h
    rw [groupBlobsLoop] at h
    cases hsz : get_blob_size fs blob with
    | error e => exact absurd h (by simp [hsz])
    | ok blob_size =>
      simp only [hsz] at h
      split at h
      · have := ih (g ++ [cur]) [blob] blob_size gs h
        simp only [List.flatten_append, List.flatten, List.append_nil] at this
        simp [this]
      · have := ih g (cur ++ [blob]) (s + blob_size) gs h
        simp [this]

/-- The already-closed groups are a prefix of the loop's output: the
accumulator can be pulled out. -/
theorem groupBlobsLoopP_append (sz : Str → Nat) (maxB : Nat) :
    ∀ (blobs : List Str) (g1 g2 : List (List Str)) (cur : List Str) (s : Nat),
      groupBlobsLoopP sz maxB blobs (g1 ++ g2) cur s
        = g1 ++ groupBlobsLoopP sz maxB blobs g2 cur s := by
  intro blobs
  induction blobs with
  | nil =>
    intro g1 g2 cur s
    rw [groupBlobsLoopP, groupBlobsLoopP]
    split <;> simp
  | cons blob rest ih =>
    intro g1 g2 cur s
    rw [groupBlobsLoopP, groupBlobsLoopP]
    split
    · rw [List.append_assoc]
      exact ih g1 (g2 ++ [cur]) [blob] (sz blob)
    · exact ih g1 g2 (cur ++ [blob]) (s + sz blob)

/-- Once the current group is non-empty, the source loop and the spec's
reference loop coincide: the extra non-emptiness test of the spec's close
condition can only differ on an empty current group, and both loops keep the
current group non-empty from then on. -/
theorem groupBlobsLoopP_eq_spec (sz : Str → Nat) (maxB : Nat) :
    ∀ (blobs : List Str) (g : List (List Str)) (cur : List Str) (s : Nat),
      cur ≠ [] → groupBlobsLoopP sz maxB blobs g cur s = specGroupLoop sz maxB blobs g cur s := by
  intro blobs
  induction blobs with
  | nil => intro g cur s _; rfl
  | cons blob rest ih =>
    intro g cur s hcur
    rw [groupBlobsLoopP, specGroupLoop]
    by_cases hover : s + sz blob > maxB
    · rw [if_pos hover, if_pos ⟨hover, hcur⟩]
      exact ih (g ++ [cur]) [blob] (sz blob) (by simp)
    · rw [if_neg hover, if_neg (fun hc => hover hc.1)]
      exact ih g (cur ++ [blob]) (s + sz blob) (by simp)

/-- Budget invariant of the pure loop: when every remaining blob fits the
budget on its own, every group of the result sums within the budget, given
that the accumulated groups do and the running size (the current group's
sum) does. -/
theorem groupBlobsLoopP_bound (sz : Str → Nat) (maxB : Nat) :
    ∀ (blobs : List Str) (g : List (List Str)) (cur : List Str) (s : Nat),
      (∀ x ∈ blobs, sz x ≤ maxB) →
      (∀ gr ∈ g, (gr.map sz).sum ≤ maxB) →
      s = (cur.map sz).sum → s ≤ maxB →
      ∀ gr ∈ groupBlobsLoopP sz maxB blobs g cur s, (gr.map sz).sum ≤ maxB := by
  intro blobs
  induction blobs with
  | nil =>
    intro g cur s _ hg hs hsle gr hgr
    rw [groupBlobsLoopP] at hgr
    split at hgr
    · exact hg gr hgr
    · rcases List.mem_append.mp hgr with hin | hin
      · exact hg gr hin
      · rcases List.mem_singleton.mp hin with rfl
        rw [← hs]; exact hsle
  | cons blob rest ih =>
    intro g cur s hblobs hg hs hsle gr hgr
    have hblob : sz blob ≤ maxB := hblobs blob (List.mem_cons_self blob rest)
    have hrest : ∀ x ∈ rest, sz x ≤ maxB := fun x hx => hblobs x (List.mem_cons_of_mem _ hx)
    rw [groupBlobsLoopP] at hgr
    split at hgr
    · refine ih (g ++ [cur]) [blob] (sz blob) hrest ?_ (by simp) hblob gr hgr
      intro gr' hgr'
      rcases List.mem_append.mp hgr' with hin | hin
      · exact hg gr' hin
      · rcases List.mem_singleton.mp hin with rfl
        rw [← hs]; exact hsle
    · next hnot =>
      refine ih g (cur ++ [blob]) (s + sz blob) hrest hg (by simp [hs]) ?_ gr hgr
      omega

/-- A failed metadata lookup anywhere in the listing aborts the whole
grouping loop with that error, whatever the loop state. -/
theorem groupBlobsLoop_error {ε : Type} (fs : GCSFileSystem ε) (maxB : Nat) (b : Str)
    (post : List Str) (e : ε) (hb : fs.info_size b = .error e) :
    ∀ (pre : List Str), (∀ x ∈ pre, (fs.info_size x).isOk = true) →
      ∀ (g : List (List Str)) (cur : List Str) (s : Nat),
        groupBlobsLoop fs maxB (pre ++ b :: post) g cur s = .error e := by
  intro pre
  induction pre with
  | nil =>
    intro _ g cur s
    show groupBlobsLoop fs maxB (b :: post) g cur s = .error e
    rw [groupBlobsLoop]
    simp [get_blob_size, hb]
  | cons x xs ih =>
    intro hpre g cur s
    have hx : (fs.info_size x).isOk = true := hpre x (List.mem_cons_self x xs)
    have htail : ∀ y ∈ xs, (fs.info_size y).isOk = true :=
      fun y hy => hpre y (List.mem_cons_of_mem _ hy)
    cases hq : fs.info_size x with
    | error e2 => rw [hq] at hx; simp [Except.isOk, Except.toBool] at hx
    | ok n =>
      show groupBlobsLoop fs maxB (x :: (xs ++ b :: post)) g cur s = .error e
      rw [groupBlobsLoop]
      simp only [get_blob_size, hq]
      split
      · exact ih htail _ _ _
      · exact ih htail _ _ _

/-- The captured outcome of one group's transfer does not depend on the local
filesystem state it starts from (it depends only on the reads it performs). -/
theorem download_group_snd {ε : Type} (fs : GCSFileSystem ε)
    (bucket_name destination_folder : Str) :
    ∀ (blobs : List Str) (st st' : LocalFS),
      (download_group fs bucket_name blobs destination_folder st).2
        = (download_group fs bucket_name blobs destination_folder st').2 := by
  intro blobs
  induction blobs with
  | nil => intro st st'; rfl
  | cons blob rest ih =>
    intro st st'
    rw [download_group, download_group]
    cases hr : fs.open_read blob with
    | error e => simp only [hr]
    | ok data => simp only [hr]; exact ih _ _

/-! ## Claim theorems -/

/-- C1: concatenating the members of the groups returned by
`group_blobs_by_size`, in group order and then intra-group order, yields
exactly the original input list — no object is lost, duplicated, or
reordered within or across group boundaries. -/
theorem groups_concat_eq_input {ε : Type} (fs : GCSFileSystem ε) (blobs : List Str)
    (max_size_mb : Nat) (gs : List (List Str))
    (h : group_blobs_by_size fs blobs max_size_mb = .ok gs) : gs.flatten = blobs := by
  have h2 := groupBlobsLoop_join fs (max_size_mb * 1024 * 1024) blobs [] [] 0 gs h
  simpa using h2

theorem groups_concat_eq_input_witness :
    ([[['a'], ['b']]] : List (List Str)).flatten = [['a'], ['b']] :=
  groups_concat_eq_input (ε := Unit) (pureFS (fun _ => 1) (fun _ => [])) [['a'], ['b']] 1
    [[['a'], ['b']]] rfl

/-- C2: for a non-empty blob list whose every blob fits the byte budget
`max_size_mb * 1024 * 1024` on its own, every group produced by
`group_blobs_by_size` has total size within that budget (the oversized
singleton exception of the claim is vacuous under this hypothesis). -/
theorem groups_respect_budget {ε : Type} (sz : Str → Nat) (content : Str → Bytes)
    (blobs : List Str) (max_size_mb : Nat) (_hne : blobs ≠ [])
    (hsz : ∀ b ∈ blobs, sz b ≤ max_size_mb * 1024 * 1024) (gs : List (List Str))
    (h : group_blobs_by_size (ε := ε) (pureFS sz content) blobs max_size_mb = .ok gs) :
    ∀ g ∈ gs, (g.map sz).sum ≤ max_size_mb * 1024 * 1024 := by
  rw [group_blobs_by_size, groupBlobsLoop_pureFS] at h
  cases h
  exact groupBlobsLoopP_bound sz (max_size_mb * 1024 * 1024) blobs [] [] 0 hsz
    (by simp) (by simp) (Nat.zero_le _)

theorem groups_respect_budget_witness :
    (([['a'], ['b']] : List Str).map (fun _ : Str => 1)).sum ≤ 1 * 1024 * 1024 :=
  groups_respect_budget (ε := Unit) (fun _ => 1) (fun _ => []) [['a'], ['b']] 1
    (by decide) (by decide) [[['a'], ['b']]] rfl [['a'], ['b']] (by decide)

/-- C9: if the size oracle fails for any single object of the input list,
`group_blobs_by_size` fails as a whole with that error — a metadata failure
for one object is fatal for the entire grouping pass. -/
theorem metadata_failure_fatal {ε : Type} (fs : GCSFileSystem ε) (pre : List Str) (b : Str)
    (post : List Str) (e : ε) (max_size_mb : Nat)
    (hpre : ∀ x ∈ pre, (fs.info_size x).isOk = true)
    (hb : fs.info_size b = .error e) :
    group_blobs_by_size fs (pre ++ b :: post) max_size_mb = .error e :=
  groupBlobsLoop_error fs (max_size_mb * 1024 * 1024) b post e hb pre hpre [] [] 0

theorem metadata_failure_fatal_witness :
    group_blobs_by_size oneBadSizeFS ([['a']] ++ ['x'] :: [['c']]) 1 = .error () :=
  metadata_failure_fatal oneBadSizeFS [['a']] ['x'] [['c']] () 1 (by decide) (by decide)

/-- C10: for every non-empty input whose first blob's size strictly exceeds
the byte budget, the sequence returned by `group_blobs_by_size` begins with
an empty group. -/
theorem oversized_first_blob_empty_group {ε : Type} (sz : Str → Nat) (content : Str → Bytes)
    (b : Str) (rest : List Str) (max_size_mb : Nat)
    (h : max_size_mb * 1024 * 1024 < sz b) :
    ∃ gs, group_blobs_by_size (ε := ε) (pureFS sz content) (b :: rest) max_size_mb
      = .ok ([] :: gs) := by
  rw [group_blobs_by_size, groupBlobsLoop_pureFS]
  refine ⟨groupBlobsLoopP sz (max_size_mb * 1024 * 1024) rest [] [b] (sz b), ?_⟩
  rw [groupBlobsLoopP, if_pos (by omega : 0 + sz b > max_size_mb * 1024 * 1024)]
  exact congrArg Except.ok
    (groupBlobsLoopP_append sz (max_size_mb * 1024 * 1024) rest [[]] [] [b] (sz b))

theorem oversized_first_blob_empty_group_witness :
    ∃ gs, group_blobs_by_size (ε := Unit) (pureFS (fun _ => 1048577) (fun _ => []))
      (['a'] :: []) 1 = .ok ([] :: gs) :=
  oversized_first_blob_empty_group (fun _ => 1048577) (fun _ => []) ['a'] [] 1 (by decide)

/-- C3 counterexample: on a single blob whose size (1048577) exceeds the
byte budget (1 MiB), the source emits a leading empty group where the
spec's reference algorithm (whose close condition requires a non-empty
current group) does not, so the two functions are not extensionally equal
and the source's output can contain an empty group. -/
theorem group_blobs_neq_spec_cex :
    group_blobs_by_size (ε := Unit) (pureFS (fun _ => 1048577) (fun _ => [])) [['a']] 1
      = .ok [[], [['a']]]
    ∧ specGroup (fun _ => 1048577) [['a']] (1 * 1024 * 1024) = [[['a']]]
    ∧ ([[], [['a']]] : List (List Str)) ≠ [[['a']]] :=
  ⟨rfl, rfl, by decide⟩

/-- C3 amended: `group_blobs_by_size` agrees with the spec's reference
greedy algorithm whenever the input is empty (zero groups) or its first
object's size is within the byte budget; when the first object's size
exceeds the budget, its output is the reference algorithm's output with
one empty group prepended. -/
theorem group_blobs_matches_spec_amended {ε : Type} (sz : Str → Nat) (content : Str → Bytes)
    (blobs : List Str) (max_size_mb : Nat) :
    group_blobs_by_size (ε := ε) (pureFS sz content) blobs max_size_mb =
      .ok (match blobs with
        | [] => []
        | b :: _ =>
          if max_size_mb * 1024 * 1024 < sz b then
            [] :: specGroup sz blobs (max_size_mb * 1024 * 1024)
          else specGroup sz blobs (max_size_mb * 1024 * 1024)) := by
  cases blobs with
  | nil => rfl
  | cons b rest =>
    rw [group_blobs_by_size, groupBlobsLoop_pureFS]
    refine congrArg Except.ok ?_
    show groupBlobsLoopP sz (max_size_mb * 1024 * 1024) (b :: rest) [] [] 0
      = (if max_size_mb * 1024 * 1024 < sz b then
          [] :: specGroup sz (b :: rest) (max_size_mb * 1024 * 1024)
        else specGroup sz (b :: rest) (max_size_mb * 1024 * 1024))
    rw [groupBlobsLoopP]
    by_cases h : 0 + sz b > max_size_mb * 1024 * 1024
    · rw [if_pos h, if_pos (by omega)]
      rw [specGroup, specGroupLoop, if_neg (fun hc => hc.2 rfl)]
      calc groupBlobsLoopP sz (max_size_mb * 1024 * 1024) rest ([] ++ [[]]) [b] (sz b)
          = [[]] ++ groupBlobsLoopP sz (max_size_mb * 1024 * 1024) rest [] [b] (sz b) :=
            groupBlobsLoopP_append sz (max_size_mb * 1024 * 1024) rest [[]] [] [b] (sz b)
        _ = [[]] ++ specGroupLoop sz (max_size_mb * 1024 * 1024) rest [] [b] (sz b) := by
            rw [groupBlobsLoopP_eq_spec sz (max_size_mb * 1024 * 1024) rest [] [b] (sz b)
              (by simp)]
        _ = [] :: specGroupLoop sz (max_size_mb * 1024 * 1024) rest [] ([] ++ [b]) (0 + sz b) :=
            by simp
    · rw [if_neg h, if_neg (by omega)]
      rw [specGroup, specGroupLoop, if_neg (fun hc => h hc.1)]
      exact groupBlobsLoopP_eq_spec sz (max_size_mb * 1024 * 1024) rest [] ([] ++ [b])
        (0 + sz b) (by simp)

/-- C6 counterexample: the input "gs://[x/y" does begin with `gs://`, yet
`parse_gcs_path` raises — `urlsplit` rejects the netloc "[x" with
`ValueError("Invalid IPv6 URL")` — instead of returning the pair the claim
promises for every `gs://` input (and the error raised is not the
malformed-path error). -/
theorem parse_gcs_path_gs_bracket_error_cex :
    gsScheme.isPrefixOf ("gs://[x/y".toList) = true
    ∧ parse_gcs_path no_netloc_error no_netloc_error ("gs://[x/y".toList)
        = .error .invalidIPv6URL :=
  ⟨rfl, rfl⟩

/-- C6 amended: `parse_gcs_path` raises the malformed-path `ValueError`
exactly when its input does not begin with `gs://`.  On `gs://` inputs,
`urlparse` first removes every tab, CR and LF character; if the resulting
netloc contains an unmatched bracket, `urlsplit` raises
`ValueError("Invalid IPv6 URL")`; otherwise — stated here for ASCII inputs
with a bracket-free netloc, where `urlsplit`'s remaining library checks
(`_check_bracketed_host`, `_checknetloc`'s NFKC branch) provably do not
fire — it returns the sanitized URL's host component and its path
component with the leading slashes stripped.  It is a plain function of
its input and the check oracles, so it has no side effects. -/
theorem parse_gcs_path_contract_amended (chk nfkc : Str → Option PyError) (s : Str) :
    (gsScheme.isPrefixOf s = false → parse_gcs_path chk nfkc s = .error (.valueError s))
    ∧ (gsScheme.isPrefixOf s = true →
        hasUnmatchedBracket (urlNetloc ((removeUnsafeBytes s).drop 5)) = true →
        parse_gcs_path chk nfkc s = .error .invalidIPv6URL)
    ∧ (gsScheme.isPrefixOf s = true →
        (urlNetloc ((removeUnsafeBytes s).drop 5)).contains '[' = false →
        (urlNetloc ((removeUnsafeBytes s).drop 5)).contains ']' = false →
        (∀ c ∈ s, c.toNat < 128) →
        parse_gcs_path chk nfkc s
          = .ok (urlNetloc ((removeUnsafeBytes s).drop 5),
                 lstripSlash (urlPath ((removeUnsafeBytes s).drop 5)))) := by
  refine ⟨fun hp => by simp [parse_gcs_path, hp], fun hp hbr => ?_, fun hp hlb hrb hascii => ?_⟩
  · simp [parse_gcs_path, hp, hbr]
  · have hub : hasUnmatchedBracket (urlNetloc ((removeUnsafeBytes s).drop 5)) = false := by
      simp only [hasUnmatchedBracket, hlb, hrb]
      rfl
    have hsub : urlNetloc ((removeUnsafeBytes s).drop 5) ⊆ s := fun c hc =>
      (List.filter_sublist s).subset
        (List.drop_subset 5 (removeUnsafeBytes s) ((List.takeWhile_prefix _).subset hc))
    have hall : (urlNetloc ((removeUnsafeBytes s).drop 5)).all
        (fun c => decide (c.toNat < 128)) = true := by
      rw [List.all_eq_true]
      intro c hc
      exact decide_eq_true (hascii c (hsub hc))
    have hnet : checknetloc nfkc (urlNetloc ((removeUnsafeBytes s).drop 5)) = none := by
      simp [checknetloc, hall]
    have hlb2 : '[' ∉ urlNetloc ((removeUnsafeBytes s).drop 5) := by simpa using hlb
    simp [parse_gcs_path, hp, hub, hlb2, hnet]

theorem parse_gcs_path_contract_amended_witness :
    parse_gcs_path no_netloc_error no_netloc_error ("gs://bkt/dir/f".toList)
      = .ok (urlNetloc ((removeUnsafeBytes ("gs://bkt/dir/f".toList)).drop 5),
             lstripSlash (urlPath ((removeUnsafeBytes ("gs://bkt/dir/f".toList)).drop 5))) :=
  (parse_gcs_path_contract_amended no_netloc_error no_netloc_error
    ("gs://bkt/dir/f".toList)).2.2 (by decide) (by decide) (by decide) (by decide)

/-- C7 counterexample: the input "gs://" is accepted by `parse_gcs_path`
and yields an empty container, refuting the claim that the container of
every accepted input is non-empty. -/
theorem parse_gcs_path_empty_container_cex :
    parse_gcs_path no_netloc_error no_netloc_error ("gs://".toList) = .ok ([], []) := rfl

/-- C7 amended: every `RemoteLocation` produced by a successful call to
`parse_gcs_path` (whatever the library check oracles) has a prefix with no
leading slash; the container, however, may be empty (for example on the
accepted input "gs://"). -/
theorem parse_gcs_path_no_leading_slash (chk nfkc : Str → Option PyError) (s c p : Str)
    (h : parse_gcs_path chk nfkc s = .ok (c, p)) : p.head? ≠ some '/' := by
  simp only [parse_gcs_path] at h
  split at h
  · split at h
    · exact absurd h (by simp)
    · split at h
      · exact absurd h (by simp)
      · split at h
        · exact absurd h (by simp)
        · injection h with h2
          injection h2 with hc hp
          intro hcontra
          rw [← hp] at hcontra
          have hq := head?_dropWhile (fun ch => ch == '/')
            (urlPath ((removeUnsafeBytes s).drop 5)) '/' hcontra
          simp at hq
  · exact absurd h (by simp)

theorem parse_gcs_path_no_leading_slash_witness :
    (['x'] : Str).head? ≠ some '/' :=
  parse_gcs_path_no_leading_slash no_netloc_error no_netloc_error
    ("gs://b//x".toList) ['b'] ['x'] rfl

/-- C4 counterexample: with container "b", listing prefix "p" and
destination "d", the blob "b/p/f" is written to "d/p/f" — its path mirrored
relative to the container root — whereas the path the claim describes
(relative to the listing prefix) is "d/f". -/
theorem download_path_bucket_relative_cex :
    (download_group (ε := Unit) (pureFS (fun _ => 1) (fun _ => [7]))
        ['b'] [['b', '/', 'p', '/', 'f']] ['d'] ⟨[], []⟩).1.files
      = [(['d', '/', 'p', '/', 'f'], [7])]
    ∧ spec_dest_file_name ['b'] ['p'] ['d'] ['b', '/', 'p', '/', 'f'] = ['d', '/', 'f']
    ∧ (['d', '/', 'p', '/', 'f'] : Str) ≠ ['d', '/', 'f'] :=
  ⟨rfl, rfl, by decide⟩

/-- C4 amended: for every group, destination root and object of the group,
the transfer writes the object's bytes to the local path obtained by
joining the destination root with the object's remote path taken relative
to the container root (`bucket_name/`) — not relative to the listing
prefix — creating each file's parent directory (hence the intermediate
directories) beforehand. -/
theorem download_group_writes_mirrored {ε : Type} (sz : Str → Nat) (content : Str → Bytes)
    (bucket_name destination_folder : Str) (blobs : List Str) (st : LocalFS) :
    download_group (ε := ε) (pureFS sz content) bucket_name blobs destination_folder st
      = (⟨st.dirs ++ blobs.map (fun b =>
            os_path_dirname (dest_file_name bucket_name destination_folder b)),
          st.files ++ blobs.map (fun b =>
            (dest_file_name bucket_name destination_folder b, content b))⟩, none) := by
  induction blobs generalizing st with
  | nil => simp [download_group]
  | cons blob rest ih =>
    show download_group (ε := ε) (pureFS sz content) bucket_name rest destination_folder
        ⟨st.dirs ++ [os_path_dirname (dest_file_name bucket_name destination_folder blob)],
         st.files ++ [(dest_file_name bucket_name destination_folder blob, content blob)]⟩
      = _
    rw [ih]
    simp

/-- C8: if the transfer of the object at position `i` of a group fails,
`download_group` propagates that object's error, every object before
position `i` remains fully written at its destination path (no rollback),
and no object after position `i` is attempted (its files are absent). -/
theorem download_group_failure_frame {ε : Type} (fs : GCSFileSystem ε)
    (bucket_name destination_folder : Str) (pre : List Str) (b : Str) (post : List Str)
    (content : Str → Bytes) (e : ε)
    (hpre : ∀ x ∈ pre, fs.open_read x = .ok (content x))
    (hb : fs.open_read b = .error e) (st : LocalFS) :
    download_group fs bucket_name (pre ++ b :: post) destination_folder st
      = (⟨st.dirs ++ (pre ++ [b]).map (fun x =>
            os_path_dirname (dest_file_name bucket_name destination_folder x)),
          st.files ++ pre.map (fun x =>
            (dest_file_name bucket_name destination_folder x, content x))⟩, some e) := by
  induction pre generalizing st with
  | nil =>
    show download_group fs bucket_name (b :: post) destination_folder st = _
    rw [download_group]
    simp only [hb]
    simp
  | cons x xs ih =>
    have hx := hpre x (List.mem_cons_self x xs)
    show download_group fs bucket_name (x :: (xs ++ b :: post)) destination_folder st = _
    rw [download_group]
    simp only [hx]
    rw [ih (fun y hy => hpre y (List.mem_cons_of_mem _ hy))]
    simp

theorem download_group_failure_frame_witness :
    download_group oneBadReadFS ['b']
        ([['b', '/', 'o', 'k']] ++ ['b', '/', 'b', 'a', 'd'] :: [['b', '/', 'p', 'o', 's', 't']])
        ['d'] ⟨[], []⟩
      = (⟨[] ++ ([['b', '/', 'o', 'k']] ++ [['b', '/', 'b', 'a', 'd']]).map (fun x =>
            os_path_dirname (dest_file_name ['b'] ['d'] x)),
          [] ++ [['b', '/', 'o', 'k']].map (fun x =>
            (dest_file_name ['b'] ['d'] x, [7]))⟩, some ()) :=
  download_group_failure_frame oneBadReadFS ['b'] ['d'] [['b', '/', 'o', 'k']]
    ['b', '/', 'b', 'a', 'd'] [['b', '/', 'p', 'o', 's', 't']] (fun _ => [7]) ()
    (by decide) (by decide) ⟨[], []⟩

/-- C5: the dispatch loop attempts every group regardless of earlier
failures: it returns only after collecting one outcome per group, in
dispatch order, each group's captured outcome being exactly the outcome of
its own transfer (independent of the state left by other groups), and no
captured error escapes the loop. -/
theorem run_groups_collect_all {ε : Type} (fs : GCSFileSystem ε)
    (bucket_name destination_folder : Str) (groups : List (List Str)) (st : LocalFS) :
    (run_groups fs bucket_name destination_folder groups st).2
      = groups.map (fun g =>
          (download_group fs bucket_name g destination_folder ⟨[], []⟩).2) := by
  induction groups generalizing st with
  | nil => rfl
  | cons g rest ih =>
    show (download_group fs bucket_name g destination_folder st).2
        :: (run_groups fs bucket_name destination_folder rest
              (download_group fs bucket_name g destination_folder st).1).2
      = _
    rw [ih, List.map_cons,
      download_group_snd fs bucket_name destination_folder g st ⟨[], []⟩]

end SmallFiles
